import Mathlib

/-!
Shallow embedding of the completion-attempt state engine of the todo-guard
repository, together with theorems checking its natural-language
specification against the code.

Embedded source files:
* `src/hooks/attemptTracker.ts` (class `AttemptTracker`): the attempt
  ledger, the completion diff and the decision engine.
* `src/hooks/HookEvents.ts` and the alternate revision of the same file
  (`persistOperation`): the snapshot persistence sequencer.

The TypeScript code keeps the ledger in a JSON object mapping todo content
to a number; we model it as an association list `List (String × Int)` with
unique-key update semantics (JS objects cannot hold a key twice: setting an
existing key updates it in place, deleting removes it). Asynchronous
storage reads/writes in the source are sequential and single-threaded, so
they are embedded as explicit state passing.
-/

/-- Status of a todo item, from the union type in `attemptTracker.ts`. -/
inductive TodoStatus where
  | pending
  | in_progress
  | completed
deriving DecidableEq, Repr

/-- `TodoItem` from `attemptTracker.ts`: identity is the `content` string. -/
structure TodoItem where
  content : String
  status : TodoStatus
deriving DecidableEq, Repr

/-- `AttemptResult` from `attemptTracker.ts`. `blockReason` is optional in the
source (`blockReason?: string`), hence `Option String`. -/
structure AttemptResult where
  exceededLimit : List TodoItem
  firstAttempt : List TodoItem
  subsequentAttempt : List TodoItem
  shouldBlock : Bool
  blockReason : Option String
deriving DecidableEq, Repr

/-- `AttemptData` from `attemptTracker.ts`: a JS object mapping todo content
to a number, modelled as an association list. -/
abbrev AttemptData := List (String × Int)

/-- Reading a key of the JS object: the (unique) entry for that key, if any. -/
def lookupA (data : AttemptData) (c : String) : Option Int :=
  (data.find? (fun kv => kv.1 == c)).map (fun kv => kv.2)

/-- Writing a key of the JS object: update the entry in place if the key is
present, otherwise append a new entry. -/
def setA : AttemptData → String → Int → AttemptData
  | [], c, v => [(c, v)]
  | kv :: rest, c, v => if kv.1 == c then (c, v) :: rest else kv :: setA rest c v

/-- `delete attemptsData[todoContent]`: remove the entry for the key. -/
def eraseA (data : AttemptData) (c : String) : AttemptData :=
  data.filter (fun kv => kv.1 != c)

/-- `AttemptTracker.getAttemptCount`: `attemptsData[todoContent] ?? 0`. -/
def getAttemptCount (data : AttemptData) (c : String) : Int :=
  (lookupA data c).getD 0

/-- `AttemptTracker.incrementAttempt`:
`attemptsData[todoContent] = (attemptsData[todoContent] ?? 0) + 1`. -/
def incrementAttempt (data : AttemptData) (c : String) : AttemptData :=
  setA data c (getAttemptCount data c + 1)

/-- `AttemptTracker.resetAttempt`: `delete attemptsData[todoContent]`. -/
def resetAttempt (data : AttemptData) (c : String) : AttemptData :=
  eraseA data c

/-- `AttemptTracker.clearAllAttempts`: save `{}`. -/
def clearAllAttempts : AttemptData := []

/-- `AttemptTracker.markAsSuccessfullyCompleted`: read the data once, delete
every given key, save once. -/
def markAsSuccessfullyCompleted (data : AttemptData) (cs : List String) : AttemptData :=
  cs.foldl (fun acc c => eraseA acc c) data

/-- `AttemptTracker.resetAttemptsForTodos` delegates to
`markAsSuccessfullyCompleted`. -/
def resetAttemptsForTodos (data : AttemptData) (cs : List String) : AttemptData :=
  markAsSuccessfullyCompleted data cs

/-- A JSON value, the possible results of `JSON.parse`. JSON numbers are
embedded as `Int`: every number the tracker itself writes is an integer
attempt count, and no claim here depends on non-integer numerics. -/
inductive Json where
  | null
  | bool (b : Bool)
  | num (v : Int)
  | str (s : String)
  | arr (elems : List Json)
  | obj (fields : List (String × Json))

/-- The numeric value of a decimal digit character, `none` otherwise. -/
def digitValue (ch : Char) : Option Nat :=
  if ch.isDigit then some (ch.toNat - ('0').toNat) else none

/-- Accumulating decimal parse of the remaining characters of a property
key. -/
def parseIndexAux : List Char → Nat → Option Nat
  | [], acc => some acc
  | ch :: rest, acc =>
    match digitValue ch with
    | some d => parseIndexAux rest (acc * 10 + d)
    | none => none

/-- The canonical array-index reading of a JS property key: a non-empty
all-digit key without a leading zero (except "0" itself), as used by JS for
string and array indexing (`"01"` is a plain property name, not an index). -/
def parseIndex? (key : String) : Option Nat :=
  match key.data with
  | [] => none
  | ch :: rest =>
    if ch = '0' then (if rest = [] then some 0 else none)
    else
      match digitValue ch with
      | some d => parseIndexAux rest d
      | none => none

/-- The JS property read `value[key]` on a parsed JSON value, restricted to
own properties (the level of fidelity used throughout this file for JS
objects): reading a property of `null` throws a TypeError; booleans and
numbers have no own properties; strings expose `length` and their characters
at canonical decimal indices; arrays expose `length` and their elements at
canonical decimal indices; objects expose their fields. `Except.error` is the
thrown exception, `Except.ok none` is `undefined`. -/
def jsonIndex : Json → String → Except String (Option Json)
  | Json.null, _ => Except.error "TypeError: Cannot read properties of null"
  | Json.bool _, _ => Except.ok none
  | Json.num _, _ => Except.ok none
  | Json.str s, key =>
    if key = "length" then Except.ok (some (Json.num (s.length : Int)))
    else
      match parseIndex? key with
      | some i =>
        match s.data.get? i with
        | some ch => Except.ok (some (Json.str (String.mk [ch])))
        | none => Except.ok none
      | none => Except.ok none
  | Json.arr elems, key =>
    if key = "length" then Except.ok (some (Json.num (elems.length : Int)))
    else
      match parseIndex? key with
      | some i =>
        match elems.get? i with
        | some v => Except.ok (some v)
        | none => Except.ok none
      | none => Except.ok none
  | Json.obj fields, key =>
    Except.ok ((fields.find? (fun kv => kv.1 == key)).map (fun kv => kv.2))

/-- `AttemptTracker.getAttemptsData`:
`try { const data = await this.storage.getAttempts(); return data ? JSON.parse(data) : {} } catch { return {} }`.
The store state is `Option (Option Json)`: `none` when nothing (or an empty
string) is stored, `some none` when the stored string does not parse
(`JSON.parse` throws, caught by the `catch`), `some (some j)` when it parses
to the JSON value `j`. A parse result that is not an object — `null`, an
array, a string — does not throw inside the `try` and is returned as-is. -/
def getAttemptsData : Option (Option Json) → Json
  | none => Json.obj []
  | some none => Json.obj []
  | some (some j) => j

/-- The read `attemptsData[todoContent] ?? 0` performed by
`AttemptTracker.getAttemptCount` on the raw value `getAttemptsData` returned:
the nullish-coalescing `?? 0` replaces `undefined` and `null` by 0, any other
property value (a number, but also a string or object for malformed stored
documents) is returned as-is, and a TypeError from the property read
propagates. -/
def getAttemptCountJson (attemptsData : Json) (todoContent : String) :
    Except String Json :=
  match jsonIndex attemptsData todoContent with
  | Except.error e => Except.error e
  | Except.ok none => Except.ok (Json.num 0)
  | Except.ok (some Json.null) => Except.ok (Json.num 0)
  | Except.ok (some v) => Except.ok v

/-- The JSON document `saveAttemptsData` writes for a ledger: an object whose
field values are the numeric counts. Parsing it back yields exactly this
value, so ledgers the tracker itself persists always re-read as objects of
numbers. -/
def ledgerToJson (L : AttemptData) : Json :=
  Json.obj (L.map (fun kv => (kv.1, Json.num kv.2)))

/-- The lookup in `AttemptTracker.findNewlyCompletedTodos`:
`previousTodos.find(p => p.content === currentTodo.content)` followed by
`!previousTodo || previousTodo.status !== 'completed'`. -/
def wasNotPreviouslyCompleted (previousTodos : List TodoItem) (t : TodoItem) : Bool :=
  match previousTodos.find? (fun p => p.content == t.content) with
  | none => true
  | some p => p.status != TodoStatus.completed

/-- `AttemptTracker.findNewlyCompletedTodos`: walk `currentTodos` in order,
keeping the completed items that were not previously completed. -/
def findNewlyCompletedTodos : List TodoItem → List TodoItem → List TodoItem
  | [], _ => []
  | t :: rest, previousTodos =>
    if t.status == TodoStatus.completed && wasNotPreviouslyCompleted previousTodos t then
      t :: findNewlyCompletedTodos rest previousTodos
    else
      findNewlyCompletedTodos rest previousTodos

/-- The local `completedTodos` of `processCompletionAttempt`:
`currentTodos.filter(todo => todo.status === 'completed')`. -/
def completedOf (currentTodos : List TodoItem) : List TodoItem :=
  currentTodos.filter (fun t => t.status == TodoStatus.completed)

/-- The local `nonCompletedTodos` of `processCompletionAttempt`:
`currentTodos.filter(todo => todo.status !== 'completed')`. -/
def nonCompletedOf (currentTodos : List TodoItem) : List TodoItem :=
  currentTodos.filter (fun t => t.status != TodoStatus.completed)

/-- The ledger after the regression-reset phase of `processCompletionAttempt`:
`await this.resetAttemptsForTodos(nonCompletedTodos.map(todo => todo.content))`. -/
def postResetLedger (currentTodos : List TodoItem) (data : AttemptData) : AttemptData :=
  resetAttemptsForTodos data ((nonCompletedOf currentTodos).map (fun t => t.content))

/-- The `exceededLimit` list built by the ceiling loop of
`processCompletionAttempt`: completed items whose attempt count, read after
the regression resets and before any increment, reaches `maxRetryAttempts`. -/
def exceededOf (currentTodos : List TodoItem) (maxRetryAttempts : Int)
    (data : AttemptData) : List TodoItem :=
  (completedOf currentTodos).filter
    (fun t => decide (maxRetryAttempts ≤ getAttemptCount (postResetLedger currentTodos data) t.content))

/-- The template fragment `` `'${t.content}'` `` (content wrapped in single
quotes, written with \x27 escapes). -/
def quoted (s : String) : String := "\x27" ++ s ++ "\x27"

/-- `list.map(t => `'${t.content}'`).join(', ')` from the block messages. -/
def joinQuoted : List TodoItem → String
  | [] => ""
  | [t] => quoted t.content
  | t :: rest => quoted t.content ++ ", " ++ joinQuoted rest

/-- The ceiling block reason of `processCompletionAttempt`. -/
def ceilingMessage (maxRetryAttempts : Int) (exceeded : List TodoItem) : String :=
  "Maximum retry attempts (" ++ toString maxRetryAttempts ++ ") exceeded for: "
    ++ joinQuoted exceeded ++ ". Stop and await user confirmation."

/-- The first-attempt block reason of `processCompletionAttempt` (singular
phrasing for one item, plural phrasing otherwise). -/
def firstAttemptMessage : List TodoItem → String
  | [t] => "Todo Guard: Verify that " ++ quoted t.content ++ " is actually complete."
  | l => "Todo Guard: These tasks must be verified as complete: " ++ joinQuoted l ++ "."

/-- The increment loop of `processCompletionAttempt`:
`for (const todo of newlyCompletedTodos) { await this.incrementAttempt(todo.content) }`. -/
def incrementAll (data : AttemptData) (cs : List String) : AttemptData :=
  cs.foldl (fun acc c => incrementAttempt acc c) data

/-- The `firstAttempt` list built by the classification loop of
`processCompletionAttempt`: newly completed items whose attempt count, read
after the resets and before the increments, is 0. -/
def firstAttemptOf (currentTodos previousTodos : List TodoItem) (data : AttemptData) :
    List TodoItem :=
  (findNewlyCompletedTodos currentTodos previousTodos).filter
    (fun t => getAttemptCount (postResetLedger currentTodos data) t.content == 0)

/-- The `subsequentAttempt` list built by the classification loop of
`processCompletionAttempt`: newly completed items whose pre-increment
attempt count is non-zero. -/
def subsequentAttemptOf (currentTodos previousTodos : List TodoItem) (data : AttemptData) :
    List TodoItem :=
  (findNewlyCompletedTodos currentTodos previousTodos).filter
    (fun t => getAttemptCount (postResetLedger currentTodos data) t.content != 0)

/-- `AttemptTracker.processCompletionAttempt`, as a pure function of the
ledger state: returns the `AttemptResult` and the ledger after the call.
It performs the regression resets, then the ceiling check (returning early
on a breach, before classification and increments), then the
first/subsequent classification of the newly completed items, then the
increments, then the decision. -/
def processCompletionAttempt (currentTodos previousTodos : List TodoItem)
    (maxRetryAttempts : Int) (data : AttemptData) : AttemptResult × AttemptData :=
  let exceeded := exceededOf currentTodos maxRetryAttempts data
  if exceeded.isEmpty then
    let firstAttempt := firstAttemptOf currentTodos previousTodos data
    let ledger2 := incrementAll (postResetLedger currentTodos data)
      ((findNewlyCompletedTodos currentTodos previousTodos).map (fun t => t.content))
    (⟨[], firstAttempt, subsequentAttemptOf currentTodos previousTodos data,
      !firstAttempt.isEmpty,
      if firstAttempt.isEmpty then none else some (firstAttemptMessage firstAttempt)⟩,
     ledger2)
  else
    (⟨exceeded, [], [], true, some (ceilingMessage maxRetryAttempts exceeded)⟩,
     postResetLedger currentTodos data)

/-- A parsed tool operation as `HookEvents.persistOperation` sees it:
`serialized` is `JSON.stringify(operation, null, 2)`, `toolInputOnly` is
`JSON.stringify({ tool_input: operation.tool_input }, null, 2)`, and
`isTodoWrite` is `isTodoWriteOperation(operation)`. -/
structure ToolOperation where
  serialized : String
  toolInputOnly : String
  isTodoWrite : Bool
deriving DecidableEq, Repr

/-- The three logical documents touched by `HookEvents.persistOperation`. -/
structure StorageState where
  todo : Option String
  previousTodos : Option String
  modifications : Option String
deriving DecidableEq, Repr

/-- `HookEvents.persistOperation` as it stands in `src/hooks/HookEvents.ts`:
for a TodoWrite operation it saves the new operation into the current slot
first, and then writes the new operation itself (in `{ tool_input: ... }`
form) into the previous slot; it never reads the stored current snapshot. -/
def persistOperation (op : ToolOperation) (s : StorageState) : StorageState :=
  if op.isTodoWrite then
    let s1 := { s with todo := some op.serialized }
    { s1 with previousTodos := some op.toolInputOnly }
  else
    { s with modifications := some op.serialized }

/-- `HookEvents.persistOperation` in the alternate revision of
`src/hooks/HookEvents.ts` present in the repository (the sequence prescribed
by the repository's fix plan document): read the stored current snapshot,
roll it into the previous slot when present (skipping the write otherwise),
then write the new operation into the current slot. -/
def persistOperationSequenced (op : ToolOperation) (s : StorageState) : StorageState :=
  if op.isTodoWrite then
    match s.todo with
    | some currentTodos =>
      { s with previousTodos := some currentTodos, todo := some op.serialized }
    | none => { s with todo := some op.serialized }
  else
    { s with modifications := some op.serialized }

/-- Ledger states reachable from the empty ledger through the
`AttemptTracker` operations. -/
inductive ReachableLedger : AttemptData → Prop
  | empty : ReachableLedger []
  | increment (c : String) {L : AttemptData} :
      ReachableLedger L → ReachableLedger (incrementAttempt L c)
  | reset (c : String) {L : AttemptData} :
      ReachableLedger L → ReachableLedger (resetAttempt L c)
  | resetMany (cs : List String) {L : AttemptData} :
      ReachableLedger L → ReachableLedger (markAsSuccessfullyCompleted L cs)
  | clear {L : AttemptData} : ReachableLedger L → ReachableLedger clearAllAttempts
  | processed (currentTodos previousTodos : List TodoItem) (m : Int) {L : AttemptData} :
      ReachableLedger L →
      ReachableLedger (processCompletionAttempt currentTodos previousTodos m L).2

/-- The ledger obtained by submitting the identity `"a"` as a newly completed
item `n` times in a row (previous snapshot showing it `pending` each time),
with the default ceiling 5, starting from the empty ledger. -/
def iterLedger : Nat → AttemptData
  | 0 => []
  | n + 1 =>
    (processCompletionAttempt [⟨"a", TodoStatus.completed⟩] [⟨"a", TodoStatus.pending⟩]
      5 (iterLedger n)).2


lemma lookupA_nil (c : String) : lookupA [] c = none := rfl

lemma lookupA_cons (kv : String × Int) (L : AttemptData) (c : String) :
    lookupA (kv :: L) c = if kv.1 == c then some kv.2 else lookupA L c := by
  simp only [lookupA, List.find?]
  cases h : kv.1 == c <;> simp [h]

lemma lookupA_setA (L : AttemptData) (c c' : String) (v : Int) :
    lookupA (setA L c v) c' = if c = c' then some v else lookupA L c' := by
  induction L with
  | nil =>
    simp only [setA, lookupA_cons, lookupA_nil]
    by_cases h : c = c' <;> simp [h]
  | cons kv rest ih =>
    by_cases hk : kv.1 = c
    · have hb : (kv.1 == c) = true := by simpa using hk
      simp only [setA, hb, if_true, lookupA_cons]
      by_cases h : c = c' <;> simp [h, hk]
    · have hb : (kv.1 == c) = false := by simpa using hk
      simp only [setA, hb, Bool.false_eq_true, if_false, lookupA_cons, ih]
      by_cases h1 : kv.1 = c'
      · have hc : ¬ c = c' := fun hcc => hk (by rw [hcc, h1])
        simp [h1, hc]
      · simp [h1]

lemma lookupA_eraseA (L : AttemptData) (c c' : String) :
    lookupA (eraseA L c) c' = if c = c' then none else lookupA L c' := by
  induction L with
  | nil =>
    by_cases h : c = c' <;> simp [eraseA, lookupA_nil, h]
  | cons kv rest ih =>
    by_cases hk : kv.1 = c
    · have hb : (kv.1 != c) = false := by simp [hk]
      have hstep : eraseA (kv :: rest) c = eraseA rest c := by
        simp [eraseA, List.filter_cons, hb]
      rw [hstep, ih, lookupA_cons]
      by_cases h : c = c'
      · simp [h]
      · have h1 : (kv.1 == c') = false := by
          simp only [beq_eq_false_iff_ne, ne_eq]
          intro hcc
          exact h (by rw [← hk, hcc])
        simp [h, h1]
    · have hb : (kv.1 != c) = true := by simp [hk]
      have hstep : eraseA (kv :: rest) c = kv :: eraseA rest c := by
        simp [eraseA, List.filter_cons, hb]
      rw [hstep, lookupA_cons, ih, lookupA_cons]
      by_cases h1 : kv.1 = c'
      · have hc : ¬ c = c' := fun hcc => hk (by rw [hcc, h1])
        simp [h1, hc]
      · simp [h1]

lemma getAttemptCount_nil (c : String) : getAttemptCount [] c = 0 := rfl

lemma getAttemptCount_incrementAttempt (L : AttemptData) (c c' : String) :
    getAttemptCount (incrementAttempt L c) c' =
      if c = c' then getAttemptCount L c + 1 else getAttemptCount L c' := by
  simp only [incrementAttempt, getAttemptCount, lookupA_setA]
  by_cases h : c = c' <;> simp [h]

lemma lookupA_incrementAttempt (L : AttemptData) (c c' : String) :
    lookupA (incrementAttempt L c) c' =
      if c = c' then some (getAttemptCount L c + 1) else lookupA L c' := by
  simp only [incrementAttempt, lookupA_setA]

lemma eraseA_of_lookupA_none (L : AttemptData) (c : String) (h : lookupA L c = none) :
    eraseA L c = L := by
  have hf : L.find? (fun kv => kv.1 == c) = none := by
    simpa [lookupA, Option.map_eq_none'] using h
  have hall := List.find?_eq_none.1 hf
  refine List.filter_eq_self.2 ?_
  intro kv hkv
  have := hall kv hkv
  simpa using this

lemma lookupA_markAsSuccessfullyCompleted (cs : List String) (L : AttemptData) (c : String) :
    lookupA (markAsSuccessfullyCompleted L cs) c =
      if c ∈ cs then none else lookupA L c := by
  induction cs generalizing L with
  | nil => simp [markAsSuccessfullyCompleted]
  | cons x cs ih =>
    have hstep : markAsSuccessfullyCompleted L (x :: cs) =
        markAsSuccessfullyCompleted (eraseA L x) cs := rfl
    rw [hstep, ih, lookupA_eraseA]
    by_cases h1 : c ∈ cs
    · simp [h1]
    · by_cases h2 : x = c
      · simp [h1, h2]
      · have h2' : ¬ c = x := fun hcc => h2 hcc.symm
        simp [h1, h2, h2']

lemma markAsSuccessfullyCompleted_of_absent (cs : List String) (L : AttemptData)
    (h : ∀ c ∈ cs, lookupA L c = none) :
    markAsSuccessfullyCompleted L cs = L := by
  induction cs with
  | nil => rfl
  | cons x cs ih =>
    have hx : eraseA L x = L := eraseA_of_lookupA_none L x (h x (by simp))
    have hstep : markAsSuccessfullyCompleted L (x :: cs) =
        markAsSuccessfullyCompleted (eraseA L x) cs := rfl
    rw [hstep, hx]
    exact ih (fun c hc => h c (by simp [hc]))

lemma getAttemptCount_incrementAll (cs : List String) (L : AttemptData) (c : String) :
    getAttemptCount (incrementAll L cs) c =
      getAttemptCount L c + (cs.count c : Int) := by
  induction cs generalizing L with
  | nil => simp [incrementAll]
  | cons x cs ih =>
    have hstep : incrementAll L (x :: cs) = incrementAll (incrementAttempt L x) cs := rfl
    rw [hstep, ih, getAttemptCount_incrementAttempt]
    by_cases h : x = c
    · simp only [h, if_true, List.count_cons, beq_self_eq_true, if_pos rfl]
      push_cast
      ring
    · have hb : (c == x) = false := by
        simp only [beq_eq_false_iff_ne, ne_eq]
        exact fun hcc => h hcc.symm
      simp [h, List.count_cons, hb]

lemma findNewlyCompletedTodos_eq_filter (currentTodos previousTodos : List TodoItem) :
    findNewlyCompletedTodos currentTodos previousTodos =
      currentTodos.filter
        (fun t => t.status == TodoStatus.completed &&
          wasNotPreviouslyCompleted previousTodos t) := by
  induction currentTodos with
  | nil => rfl
  | cons t rest ih =>
    simp only [findNewlyCompletedTodos, List.filter_cons]
    cases h : t.status == TodoStatus.completed && wasNotPreviouslyCompleted previousTodos t <;>
      simp [h, ih]

lemma wasNotPreviouslyCompleted_nil (t : TodoItem) :
    wasNotPreviouslyCompleted [] t = true := rfl

lemma findNewlyCompletedTodos_nil_previous (currentTodos : List TodoItem) :
    findNewlyCompletedTodos currentTodos [] =
      currentTodos.filter (fun t => t.status == TodoStatus.completed) := by
  rw [findNewlyCompletedTodos_eq_filter]
  simp [wasNotPreviouslyCompleted_nil]

lemma findNewlyCompletedTodos_sublist (currentTodos previousTodos : List TodoItem) :
    (findNewlyCompletedTodos currentTodos previousTodos).Sublist currentTodos := by
  rw [findNewlyCompletedTodos_eq_filter]
  exact List.filter_sublist currentTodos

lemma mem_findNewlyCompletedTodos {currentTodos previousTodos : List TodoItem} {t : TodoItem} :
    t ∈ findNewlyCompletedTodos currentTodos previousTodos ↔
      t ∈ currentTodos ∧ t.status = TodoStatus.completed ∧
        wasNotPreviouslyCompleted previousTodos t = true := by
  rw [findNewlyCompletedTodos_eq_filter, List.mem_filter]
  simp [and_assoc]

lemma joinQuoted_decomp {l : List TodoItem} {t : TodoItem} (h : t ∈ l) :
    ∃ p q : String, joinQuoted l = p ++ (quoted t.content ++ q) := by
  induction l with
  | nil => cases h
  | cons x rest ih =>
    cases rest with
    | nil =>
      have hx : t = x := by simpa using h
      exact ⟨"", "", by simp [joinQuoted, hx]⟩
    | cons y rest' =>
      rcases List.mem_cons.1 h with hx | hmem
      · refine ⟨"", ", " ++ joinQuoted (y :: rest'), ?_⟩
        rw [hx]
        simp only [joinQuoted]
        rw [String.append_assoc]
        simp
      · rcases ih hmem with ⟨p, q, hpq⟩
        refine ⟨quoted x.content ++ ", " ++ p, q, ?_⟩
        simp only [joinQuoted]
        rw [hpq, String.append_assoc, String.append_assoc, String.append_assoc]

lemma ceilingMessage_decomp (m : Int) {l : List TodoItem} {t : TodoItem} (h : t ∈ l) :
    ∃ p q : String, ceilingMessage m l = p ++ (quoted t.content ++ q) := by
  rcases joinQuoted_decomp h with ⟨p, q, hpq⟩
  refine ⟨"Maximum retry attempts (" ++ toString m ++ ") exceeded for: " ++ p,
    q ++ ". Stop and await user confirmation.", ?_⟩
  simp only [ceilingMessage, hpq]
  repeat rw [String.append_assoc]

lemma firstAttemptMessage_decomp {l : List TodoItem} {t : TodoItem} (h : t ∈ l) :
    ∃ p q : String, firstAttemptMessage l = p ++ (quoted t.content ++ q) := by
  match l with
  | [] => cases h
  | [x] =>
    have hx : t = x := by simpa using h
    refine ⟨"Todo Guard: Verify that ", " is actually complete.", ?_⟩
    simp only [firstAttemptMessage, hx]
    rw [String.append_assoc]
  | x :: y :: rest =>
    rcases joinQuoted_decomp h with ⟨p, q, hpq⟩
    refine ⟨"Todo Guard: These tasks must be verified as complete: " ++ p, q ++ ".", ?_⟩
    simp only [firstAttemptMessage, hpq]
    repeat rw [String.append_assoc]

lemma processCompletionAttempt_ceiling {currentTodos previousTodos : List TodoItem}
    {m : Int} {L : AttemptData} (h : exceededOf currentTodos m L ≠ []) :
    processCompletionAttempt currentTodos previousTodos m L =
      (⟨exceededOf currentTodos m L, [], [], true,
        some (ceilingMessage m (exceededOf currentTodos m L))⟩,
       postResetLedger currentTodos L) := by
  have hb : (exceededOf currentTodos m L).isEmpty = false := by
    cases hcase : exceededOf currentTodos m L with
    | nil => exact absurd hcase h
    | cons a l => simp [hcase]
  simp [processCompletionAttempt, hb]

lemma processCompletionAttempt_ok {currentTodos previousTodos : List TodoItem}
    {m : Int} {L : AttemptData} (h : exceededOf currentTodos m L = []) :
    processCompletionAttempt currentTodos previousTodos m L =
      (⟨[], firstAttemptOf currentTodos previousTodos L,
        subsequentAttemptOf currentTodos previousTodos L,
        !(firstAttemptOf currentTodos previousTodos L).isEmpty,
        if (firstAttemptOf currentTodos previousTodos L).isEmpty then none
        else some (firstAttemptMessage (firstAttemptOf currentTodos previousTodos L))⟩,
       incrementAll (postResetLedger currentTodos L)
         ((findNewlyCompletedTodos currentTodos previousTodos).map (fun t => t.content))) := by
  simp [processCompletionAttempt, h]

/-- Every entry of the ledger is at least 1 (count 0 is represented by
absence of the entry). -/
def LedgerPositive (L : AttemptData) : Prop :=
  ∀ c v, lookupA L c = some v → 1 ≤ v

lemma ledgerPositive_nil : LedgerPositive [] := by
  intro c v h
  simp [lookupA_nil] at h

lemma getAttemptCount_nonneg_of_positive {L : AttemptData} (hL : LedgerPositive L)
    (c : String) : 0 ≤ getAttemptCount L c := by
  unfold getAttemptCount
  cases h : lookupA L c with
  | none => simp
  | some v =>
    have := hL c v h
    simp only [Option.getD_some]
    omega

lemma ledgerPositive_incrementAttempt {L : AttemptData} (hL : LedgerPositive L)
    (c : String) : LedgerPositive (incrementAttempt L c) := by
  intro c' v h
  rw [lookupA_incrementAttempt] at h
  by_cases hc : c = c'
  · rw [if_pos hc] at h
    have hnn := getAttemptCount_nonneg_of_positive hL c
    have : v = getAttemptCount L c + 1 := by
      injection h with h
      omega
    omega
  · rw [if_neg hc] at h
    exact hL c' v h

lemma ledgerPositive_eraseA {L : AttemptData} (hL : LedgerPositive L)
    (c : String) : LedgerPositive (eraseA L c) := by
  intro c' v h
  rw [lookupA_eraseA] at h
  by_cases hc : c = c'
  · rw [if_pos hc] at h
    cases h
  · rw [if_neg hc] at h
    exact hL c' v h

lemma ledgerPositive_markAsSuccessfullyCompleted {L : AttemptData} (hL : LedgerPositive L)
    (cs : List String) : LedgerPositive (markAsSuccessfullyCompleted L cs) := by
  intro c' v h
  rw [lookupA_markAsSuccessfullyCompleted] at h
  by_cases hc : c' ∈ cs
  · rw [if_pos hc] at h
    cases h
  · rw [if_neg hc] at h
    exact hL c' v h

lemma ledgerPositive_incrementAll {L : AttemptData} (hL : LedgerPositive L)
    (cs : List String) : LedgerPositive (incrementAll L cs) := by
  induction cs generalizing L with
  | nil => exact hL
  | cons x cs ih =>
    have hstep : incrementAll L (x :: cs) = incrementAll (incrementAttempt L x) cs := rfl
    rw [hstep]
    exact ih (ledgerPositive_incrementAttempt hL x)

lemma ledgerPositive_postResetLedger {L : AttemptData} (hL : LedgerPositive L)
    (currentTodos : List TodoItem) : LedgerPositive (postResetLedger currentTodos L) :=
  ledgerPositive_markAsSuccessfullyCompleted hL _

lemma ledgerPositive_processCompletionAttempt {L : AttemptData} (hL : LedgerPositive L)
    (currentTodos previousTodos : List TodoItem) (m : Int) :
    LedgerPositive (processCompletionAttempt currentTodos previousTodos m L).2 := by
  by_cases h : exceededOf currentTodos m L = []
  · rw [processCompletionAttempt_ok h]
    exact ledgerPositive_incrementAll (ledgerPositive_postResetLedger hL currentTodos) _
  · rw [processCompletionAttempt_ceiling h]
    exact ledgerPositive_postResetLedger hL currentTodos

lemma reachableLedger_positive {L : AttemptData} (h : ReachableLedger L) :
    LedgerPositive L := by
  induction h with
  | empty => exact ledgerPositive_nil
  | increment c _ ih => exact ledgerPositive_incrementAttempt ih c
  | reset c _ ih => exact ledgerPositive_eraseA ih c
  | resetMany cs _ ih => exact ledgerPositive_markAsSuccessfullyCompleted ih cs
  | clear _ _ => exact ledgerPositive_nil
  | processed currentTodos previousTodos m _ ih =>
    exact ledgerPositive_processCompletionAttempt ih currentTodos previousTodos m

lemma getAttemptCount_setA (L : AttemptData) (c c' : String) (v : Int) :
    getAttemptCount (setA L c v) c' = if c = c' then v else getAttemptCount L c' := by
  simp only [getAttemptCount, lookupA_setA]
  by_cases h : c = c' <;> simp [h]

lemma find?_content_self {S : List TodoItem}
    (hnd : (S.map (fun t => t.content)).Nodup) {t : TodoItem} (ht : t ∈ S) :
    S.find? (fun p => p.content == t.content) = some t := by
  induction S with
  | nil => cases ht
  | cons u rest ih =>
    have hnd' : u.content ∉ (rest.map (fun t => t.content)) ∧
        (rest.map (fun t => t.content)).Nodup := by
      rw [List.map_cons] at hnd
      exact List.nodup_cons.1 hnd
    rcases List.mem_cons.1 ht with hu | hmem
    · subst hu
      simp [List.find?]
    · have hne : u.content ≠ t.content := by
        intro hcc
        exact hnd'.1 (hcc ▸ List.mem_map_of_mem (fun t => t.content) hmem)
      have hp : (u.content == t.content) = false := by simpa using hne
      simp only [List.find?, hp]
      exact ih hnd'.2 hmem

lemma processCompletionAttempt_step_ledger (L : AttemptData) :
    (processCompletionAttempt [⟨"a", TodoStatus.completed⟩] [⟨"a", TodoStatus.pending⟩]
        5 L).2 =
      if 5 ≤ getAttemptCount L "a" then L
      else setA L "a" (getAttemptCount L "a" + 1) := by
  have hpr : postResetLedger [⟨"a", TodoStatus.completed⟩] L = L := rfl
  have hex : exceededOf [⟨"a", TodoStatus.completed⟩] 5 L =
      if 5 ≤ getAttemptCount L "a" then [⟨"a", TodoStatus.completed⟩] else [] := by
    simp only [exceededOf, hpr]
    by_cases h5 : (5 : Int) ≤ getAttemptCount L "a" <;>
      simp [completedOf, List.filter_cons, h5]
  by_cases h5 : (5 : Int) ≤ getAttemptCount L "a"
  · have hne : exceededOf [⟨"a", TodoStatus.completed⟩] 5 L ≠ [] := by
      rw [hex, if_pos h5]
      simp
    rw [processCompletionAttempt_ceiling hne, if_pos h5]
    exact hpr
  · have heq : exceededOf [⟨"a", TodoStatus.completed⟩] 5 L = [] := by
      rw [hex, if_neg h5]
    rw [processCompletionAttempt_ok heq, if_neg h5]
    rfl

lemma getAttemptCount_iterLedger (n : Nat) :
    getAttemptCount (iterLedger n) "a" = ((min n 5 : Nat) : Int) := by
  induction n with
  | zero => rfl
  | succ n ih =>
    have hstep := processCompletionAttempt_step_ledger (iterLedger n)
    show getAttemptCount (processCompletionAttempt _ _ 5 (iterLedger n)).2 "a" = _
    rw [hstep]
    by_cases h5 : (5 : Int) ≤ getAttemptCount (iterLedger n) "a"
    · rw [if_pos h5, ih]
      rw [ih] at h5
      have : min n 5 = 5 := by omega
      have hmin : min (n + 1) 5 = 5 := by omega
      rw [hmin, this]
    · rw [if_neg h5, getAttemptCount_setA, if_pos rfl, ih]
      rw [ih] at h5
      omega

/-- C7: `findNewlyCompletedTodos(current, previous)` returns exactly the items
of `current` with status completed whose identity has no match in `previous`
or whose first match (`Array.prototype.find`, embedded as `List.find?` inside
`wasNotPreviouslyCompleted`) has a status other than completed; the result
preserves `current`'s order (it is a sublist of `current`), and an empty
previous snapshot makes every completed item newly completed. The function is
embedded as a pure Lean function, matching the side-effect-free source. -/
theorem findNewlyCompletedTodos_spec (currentTodos previousTodos : List TodoItem) :
    findNewlyCompletedTodos currentTodos previousTodos =
      currentTodos.filter (fun t =>
        t.status == TodoStatus.completed && wasNotPreviouslyCompleted previousTodos t) ∧
    (findNewlyCompletedTodos currentTodos previousTodos).Sublist currentTodos ∧
    findNewlyCompletedTodos currentTodos [] =
      currentTodos.filter (fun t => t.status == TodoStatus.completed) :=
  ⟨findNewlyCompletedTodos_eq_filter currentTodos previousTodos,
   findNewlyCompletedTodos_sublist currentTodos previousTodos,
   findNewlyCompletedTodos_nil_previous currentTodos⟩

/-- C7 witness: the characterization evaluated at a concrete diff. -/
theorem findNewlyCompletedTodos_spec_witness :
    findNewlyCompletedTodos
        [⟨"a", TodoStatus.completed⟩, ⟨"b", TodoStatus.pending⟩]
        [⟨"a", TodoStatus.pending⟩] =
      ([⟨"a", TodoStatus.completed⟩, ⟨"b", TodoStatus.pending⟩] :
        List TodoItem).filter (fun t =>
        t.status == TodoStatus.completed &&
          wasNotPreviouslyCompleted [⟨"a", TodoStatus.pending⟩] t) ∧
    (findNewlyCompletedTodos
        [⟨"a", TodoStatus.completed⟩, ⟨"b", TodoStatus.pending⟩]
        [⟨"a", TodoStatus.pending⟩]).Sublist
      [⟨"a", TodoStatus.completed⟩, ⟨"b", TodoStatus.pending⟩] ∧
    findNewlyCompletedTodos
        [⟨"a", TodoStatus.completed⟩, ⟨"b", TodoStatus.pending⟩] [] =
      ([⟨"a", TodoStatus.completed⟩, ⟨"b", TodoStatus.pending⟩] :
        List TodoItem).filter (fun t => t.status == TodoStatus.completed) :=
  findNewlyCompletedTodos_spec
    [⟨"a", TodoStatus.completed⟩, ⟨"b", TodoStatus.pending⟩]
    [⟨"a", TodoStatus.pending⟩]

/-- C8 counterexample: for the snapshot `S` holding two items with the same
identity `"a"` (first pending, then completed), `findNewlyCompletedTodos S S`
is not empty: the completed duplicate matches the pending first occurrence. -/
theorem findNewlyCompletedTodos_self_counterexample :
    findNewlyCompletedTodos
        [⟨"a", TodoStatus.pending⟩, ⟨"a", TodoStatus.completed⟩]
        [⟨"a", TodoStatus.pending⟩, ⟨"a", TodoStatus.completed⟩] =
      [⟨"a", TodoStatus.completed⟩] ∧
    findNewlyCompletedTodos
        [⟨"a", TodoStatus.pending⟩, ⟨"a", TodoStatus.completed⟩]
        [⟨"a", TodoStatus.pending⟩, ⟨"a", TodoStatus.completed⟩] ≠ [] := by
  constructor
  · rfl
  · decide

/-- C8 (amended): for every snapshot without duplicate identities, diffing it
against itself yields no newly-completed items. -/
theorem findNewlyCompletedTodos_self_nodup (S : List TodoItem)
    (h : (S.map (fun t => t.content)).Nodup) :
    findNewlyCompletedTodos S S = [] := by
  rw [findNewlyCompletedTodos_eq_filter]
  refine List.filter_eq_nil_iff.2 ?_
  intro t ht
  by_cases hc : t.status = TodoStatus.completed
  · have hf := find?_content_self h ht
    simp [wasNotPreviouslyCompleted, hf, hc]
  · simp [hc]

/-- C8 witness: the amended statement evaluated on a concrete
duplicate-free snapshot. -/
theorem findNewlyCompletedTodos_self_nodup_witness :
    (([⟨"a", TodoStatus.completed⟩, ⟨"b", TodoStatus.pending⟩] :
        List TodoItem).map (fun t => t.content)).Nodup ∧
    findNewlyCompletedTodos
        [⟨"a", TodoStatus.completed⟩, ⟨"b", TodoStatus.pending⟩]
        [⟨"a", TodoStatus.completed⟩, ⟨"b", TodoStatus.pending⟩] = [] :=
  ⟨by decide,
   findNewlyCompletedTodos_self_nodup
     [⟨"a", TodoStatus.completed⟩, ⟨"b", TodoStatus.pending⟩] (by decide)⟩

/-- C1: whenever some completed item of the current batch has a pre-increment
attempt count (read after the regression resets, before any increment) at or
above `maxRetryAttempts`, `processCompletionAttempt` returns a single
blocking decision: `shouldBlock` is true, `exceededLimit` collects exactly
the completed items at or above the ceiling (each named, quoted, inside the
block reason), the first/subsequent classification lists stay empty, and the
resulting ledger is the post-reset ledger — no increment is performed for any
item in the call. -/
theorem processCompletionAttempt_ceiling_blocks
    (currentTodos previousTodos : List TodoItem) (m : Int) (L : AttemptData)
    (h : ∃ t ∈ currentTodos, t.status = TodoStatus.completed ∧
      m ≤ getAttemptCount (postResetLedger currentTodos L) t.content) :
    (processCompletionAttempt currentTodos previousTodos m L).1.shouldBlock = true ∧
    (processCompletionAttempt currentTodos previousTodos m L).1.exceededLimit =
      exceededOf currentTodos m L ∧
    (processCompletionAttempt currentTodos previousTodos m L).1.firstAttempt = [] ∧
    (processCompletionAttempt currentTodos previousTodos m L).1.subsequentAttempt = [] ∧
    (processCompletionAttempt currentTodos previousTodos m L).1.blockReason =
      some (ceilingMessage m (exceededOf currentTodos m L)) ∧
    (∀ t ∈ currentTodos, t.status = TodoStatus.completed →
      m ≤ getAttemptCount (postResetLedger currentTodos L) t.content →
      t ∈ exceededOf currentTodos m L) ∧
    (∀ t ∈ exceededOf currentTodos m L, ∃ p q : String,
      ceilingMessage m (exceededOf currentTodos m L) = p ++ (quoted t.content ++ q)) ∧
    (processCompletionAttempt currentTodos previousTodos m L).2 =
      postResetLedger currentTodos L := by
  obtain ⟨t, htmem, htc, htm⟩ := h
  have htex : t ∈ exceededOf currentTodos m L :=
    List.mem_filter.2 ⟨List.mem_filter.2 ⟨htmem, by simp [htc]⟩, by simp [htm]⟩
  have hne : exceededOf currentTodos m L ≠ [] := by
    intro hnil
    rw [hnil] at htex
    cases htex
  rw [processCompletionAttempt_ceiling hne]
  refine ⟨rfl, rfl, rfl, rfl, rfl, ?_, ?_, rfl⟩
  · intro u hu huc hum
    exact List.mem_filter.2 ⟨List.mem_filter.2 ⟨hu, by simp [huc]⟩, by simp [hum]⟩
  · intro u hu
    exact ceilingMessage_decomp m hu

/-- C1 witness: the ceiling short-circuit evaluated at a concrete call. -/
theorem processCompletionAttempt_ceiling_blocks_witness :
    (∃ t ∈ [(⟨"a", TodoStatus.completed⟩ : TodoItem)],
      t.status = TodoStatus.completed ∧
      (1 : Int) ≤ getAttemptCount
        (postResetLedger [⟨"a", TodoStatus.completed⟩] [("a", 2)]) t.content) ∧
    (processCompletionAttempt [⟨"a", TodoStatus.completed⟩] [] 1
      [("a", 2)]).1.shouldBlock = true ∧
    (processCompletionAttempt [⟨"a", TodoStatus.completed⟩] [] 1
      [("a", 2)]).2 = postResetLedger [⟨"a", TodoStatus.completed⟩] [("a", 2)] :=
  ⟨by decide,
   (processCompletionAttempt_ceiling_blocks [⟨"a", TodoStatus.completed⟩] [] 1
     [("a", 2)] (by decide)).1,
   (processCompletionAttempt_ceiling_blocks [⟨"a", TodoStatus.completed⟩] [] 1
     [("a", 2)] (by decide)).2.2.2.2.2.2.2⟩

/-- C2 counterexample: a no-ceiling call in which the item `"a"` is completed
in the current batch but was already completed in the previous snapshot: the
claim demands its count be incremented from 1 to 2, yet the call leaves the
ledger unchanged at 1 — only newly-completed items are incremented. -/
theorem processCompletionAttempt_increment_counterexample :
    exceededOf [⟨"a", TodoStatus.completed⟩] 5 [("a", 1)] = [] ∧
    (processCompletionAttempt [⟨"a", TodoStatus.completed⟩]
      [⟨"a", TodoStatus.completed⟩] 5 [("a", 1)]).2 = [("a", 1)] ∧
    getAttemptCount ((processCompletionAttempt [⟨"a", TodoStatus.completed⟩]
      [⟨"a", TodoStatus.completed⟩] 5 [("a", 1)]).2) "a" ≠ 1 + 1 := by
  refine ⟨rfl, rfl, by decide⟩

/-- C2 (amended): in a no-ceiling call, the count of each identity grows by
exactly the number of *newly-completed* items carrying that identity; items
completed in both the previous and the current snapshot are not incremented. -/
theorem processCompletionAttempt_increments_newly_only
    (currentTodos previousTodos : List TodoItem) (m : Int) (L : AttemptData)
    (h : exceededOf currentTodos m L = []) (c : String) :
    getAttemptCount ((processCompletionAttempt currentTodos previousTodos m L).2) c =
      getAttemptCount (postResetLedger currentTodos L) c +
        (((findNewlyCompletedTodos currentTodos previousTodos).map
          (fun t => t.content)).count c : Int) := by
  rw [processCompletionAttempt_ok h]
  exact getAttemptCount_incrementAll _ _ _

/-- C2 witness: the amended increment law evaluated at a concrete call with
one newly completed item. -/
theorem processCompletionAttempt_increments_newly_only_witness :
    exceededOf [⟨"a", TodoStatus.completed⟩] 5 [] = [] ∧
    getAttemptCount ((processCompletionAttempt [⟨"a", TodoStatus.completed⟩] []
        5 []).2) "a" =
      getAttemptCount (postResetLedger [⟨"a", TodoStatus.completed⟩] []) "a" +
        (((findNewlyCompletedTodos [⟨"a", TodoStatus.completed⟩] []).map
          (fun t => t.content)).count "a" : Int) :=
  ⟨by decide,
   processCompletionAttempt_increments_newly_only [⟨"a", TodoStatus.completed⟩] []
     5 [] (by decide) "a"⟩

/-- C5: in a call in which no completed item reaches the ceiling, the newly
completed items are partitioned by their pre-increment count (0 versus
positive) into `firstAttempt` and `subsequentAttempt`; a non-empty
`firstAttempt` yields a blocking decision whose reason names (quoted) every
first-attempt item, and an empty `firstAttempt` yields a pass-through
decision (no block, no reason) whether or not `subsequentAttempt` is empty. -/
theorem processCompletionAttempt_classification
    (currentTodos previousTodos : List TodoItem) (m : Int) (L : AttemptData)
    (h : ∀ t ∈ currentTodos, t.status = TodoStatus.completed →
      getAttemptCount (postResetLedger currentTodos L) t.content < m) :
    (processCompletionAttempt currentTodos previousTodos m L).1.exceededLimit = [] ∧
    (processCompletionAttempt currentTodos previousTodos m L).1.firstAttempt =
      (findNewlyCompletedTodos currentTodos previousTodos).filter
        (fun t => getAttemptCount (postResetLedger currentTodos L) t.content == 0) ∧
    (processCompletionAttempt currentTodos previousTodos m L).1.subsequentAttempt =
      (findNewlyCompletedTodos currentTodos previousTodos).filter
        (fun t => getAttemptCount (postResetLedger currentTodos L) t.content != 0) ∧
    ((processCompletionAttempt currentTodos previousTodos m L).1.firstAttempt = [] →
      (processCompletionAttempt currentTodos previousTodos m L).1.shouldBlock = false ∧
      (processCompletionAttempt currentTodos previousTodos m L).1.blockReason = none) ∧
    ((processCompletionAttempt currentTodos previousTodos m L).1.firstAttempt ≠ [] →
      (processCompletionAttempt currentTodos previousTodos m L).1.shouldBlock = true ∧
      (processCompletionAttempt currentTodos previousTodos m L).1.blockReason =
        some (firstAttemptMessage
          (processCompletionAttempt currentTodos previousTodos m L).1.firstAttempt) ∧
      ∀ t ∈ (processCompletionAttempt currentTodos previousTodos m L).1.firstAttempt,
        ∃ p q : String,
          firstAttemptMessage
            (processCompletionAttempt currentTodos previousTodos m L).1.firstAttempt =
            p ++ (quoted t.content ++ q)) := by
  have hex : exceededOf currentTodos m L = [] := by
    refine List.filter_eq_nil_iff.2 ?_
    intro t ht
    have ht' := List.mem_filter.1 ht
    have hstat : t.status = TodoStatus.completed := by simpa using ht'.2
    have hlt := h t ht'.1 hstat
    simp only [decide_eq_true_eq, not_le]
    exact hlt
  rw [processCompletionAttempt_ok hex]
  refine ⟨rfl, rfl, rfl, ?_, ?_⟩
  · intro hfa
    simp only at hfa
    simp [hfa]
  · intro hfa
    simp only at hfa
    have hb : (firstAttemptOf currentTodos previousTodos L).isEmpty = false := by
      cases hcase : firstAttemptOf currentTodos previousTodos L with
      | nil => exact absurd hcase hfa
      | cons a l => simp [hcase]
    refine ⟨by simp [hb], by simp [hb], ?_⟩
    intro t htmem
    simp only at htmem
    exact firstAttemptMessage_decomp htmem

/-- C5 witness: the classification evaluated at a concrete no-ceiling call. -/
theorem processCompletionAttempt_classification_witness :
    (∀ t ∈ [(⟨"a", TodoStatus.completed⟩ : TodoItem)],
      t.status = TodoStatus.completed →
      getAttemptCount (postResetLedger [⟨"a", TodoStatus.completed⟩] []) t.content
        < 5) ∧
    (processCompletionAttempt [⟨"a", TodoStatus.completed⟩] [] 5
      []).1.exceededLimit = [] :=
  ⟨by decide,
   (processCompletionAttempt_classification [⟨"a", TodoStatus.completed⟩] [] 5 []
     (by decide)).1⟩

lemma getAttemptCount_postResetLedger_of_nonCompleted
    (currentTodos : List TodoItem) (L : AttemptData) {t : TodoItem}
    (ht : t ∈ currentTodos) (hstat : t.status ≠ TodoStatus.completed) :
    getAttemptCount (postResetLedger currentTodos L) t.content = 0 := by
  have hmem : t ∈ nonCompletedOf currentTodos :=
    List.mem_filter.2 ⟨ht, by simp [hstat]⟩
  have hmap : t.content ∈ (nonCompletedOf currentTodos).map (fun t => t.content) :=
    List.mem_map_of_mem (fun t => t.content) hmem
  have hlk : lookupA (postResetLedger currentTodos L) t.content = none := by
    simp only [postResetLedger, resetAttemptsForTodos]
    rw [lookupA_markAsSuccessfullyCompleted]
    simp [hmap]
  simp [getAttemptCount, hlk]

/-- C6: (a) in every call, the ledger entries of all current items with a
non-completed status are removed before the ceiling check runs (their count
in the post-reset ledger, on which the ceiling check reads, is 0); (b) an
identity `c` that regresses (appears only with non-completed statuses in one
batch) and is later submitted as completed again — with the regressing batch
as the previous snapshot — is classified as a first attempt again, producing
a first-attempt block (assuming a positive ceiling). -/
theorem processCompletionAttempt_regression_resets
    (cur1 prev1 : List TodoItem) (m1 m2 : Int) (L : AttemptData) (c : String)
    (h0 : ∃ t ∈ cur1, t.content = c)
    (h1 : ∀ t ∈ cur1, t.content = c → t.status ≠ TodoStatus.completed)
    (h2 : 0 < m2) :
    (∀ t ∈ cur1, t.status ≠ TodoStatus.completed →
      getAttemptCount (postResetLedger cur1 L) t.content = 0) ∧
    getAttemptCount (processCompletionAttempt cur1 prev1 m1 L).2 c = 0 ∧
    (processCompletionAttempt [⟨c, TodoStatus.completed⟩] cur1 m2
        (processCompletionAttempt cur1 prev1 m1 L).2).1.firstAttempt =
      [⟨c, TodoStatus.completed⟩] ∧
    (processCompletionAttempt [⟨c, TodoStatus.completed⟩] cur1 m2
        (processCompletionAttempt cur1 prev1 m1 L).2).1.shouldBlock = true := by
  obtain ⟨t0, ht0, hct0⟩ := h0
  have hst0 : t0.status ≠ TodoStatus.completed := h1 t0 ht0 hct0
  have hzero : getAttemptCount (postResetLedger cur1 L) c = 0 := by
    have := getAttemptCount_postResetLedger_of_nonCompleted cur1 L ht0 hst0
    rwa [hct0] at this
  have hB : getAttemptCount (processCompletionAttempt cur1 prev1 m1 L).2 c = 0 := by
    by_cases hexc : exceededOf cur1 m1 L = []
    · rw [processCompletionAttempt_increments_newly_only cur1 prev1 m1 L hexc c, hzero]
      have hnot : c ∉ (findNewlyCompletedTodos cur1 prev1).map (fun t => t.content) := by
        intro hmem
        obtain ⟨u, humem, hueq⟩ := List.mem_map.1 hmem
        have hu := mem_findNewlyCompletedTodos.1 humem
        exact h1 u hu.1 hueq hu.2.1
      rw [List.count_eq_zero.2 hnot]
      simp
    · rw [processCompletionAttempt_ceiling hexc]
      exact hzero
  have hpr2 : postResetLedger [⟨c, TodoStatus.completed⟩]
      (processCompletionAttempt cur1 prev1 m1 L).2 =
      (processCompletionAttempt cur1 prev1 m1 L).2 := rfl
  have hno : ¬ (m2 ≤ getAttemptCount (processCompletionAttempt cur1 prev1 m1 L).2 c) := by
    rw [hB]
    omega
  have hex2 : exceededOf [⟨c, TodoStatus.completed⟩] m2
      (processCompletionAttempt cur1 prev1 m1 L).2 = [] := by
    simp only [exceededOf, hpr2, completedOf, List.filter_cons, List.filter_nil]
    simp [hno]
  have hwn : wasNotPreviouslyCompleted cur1 ⟨c, TodoStatus.completed⟩ = true := by
    simp only [wasNotPreviouslyCompleted]
    cases hfind : cur1.find?
        (fun p => p.content == (⟨c, TodoStatus.completed⟩ : TodoItem).content) with
    | none =>
      exfalso
      have := List.find?_eq_none.1 hfind t0 ht0
      simp [hct0] at this
    | some p =>
      have hpc : p.content = c := by
        have := List.find?_some hfind
        simpa using this
      have hpmem : p ∈ cur1 := List.mem_of_find?_eq_some hfind
      have := h1 p hpmem hpc
      simpa using this
  have hnewly : findNewlyCompletedTodos [⟨c, TodoStatus.completed⟩] cur1 =
      [⟨c, TodoStatus.completed⟩] := by
    simp [findNewlyCompletedTodos, hwn]
  have hfa : firstAttemptOf [⟨c, TodoStatus.completed⟩] cur1
      (processCompletionAttempt cur1 prev1 m1 L).2 = [⟨c, TodoStatus.completed⟩] := by
    simp only [firstAttemptOf, hnewly, hpr2, List.filter_cons, List.filter_nil]
    simp [hB]
  refine ⟨fun t ht hstat =>
    getAttemptCount_postResetLedger_of_nonCompleted cur1 L ht hstat, hB, ?_, ?_⟩
  · rw [processCompletionAttempt_ok hex2]
    exact hfa
  · rw [processCompletionAttempt_ok hex2]
    simp [hfa]

/-- C6 witness: the regression scenario evaluated at a concrete pair of
calls for the identity `"a"`. -/
theorem processCompletionAttempt_regression_resets_witness :
    (∃ t ∈ [(⟨"a", TodoStatus.pending⟩ : TodoItem)], t.content = "a") ∧
    (∀ t ∈ [(⟨"a", TodoStatus.pending⟩ : TodoItem)], t.content = "a" →
      t.status ≠ TodoStatus.completed) ∧
    (0 : Int) < 5 ∧
    (processCompletionAttempt [⟨"a", TodoStatus.completed⟩]
        [⟨"a", TodoStatus.pending⟩] 5
        (processCompletionAttempt [⟨"a", TodoStatus.pending⟩] [] 5 []).2).1.firstAttempt =
      [⟨"a", TodoStatus.completed⟩] :=
  ⟨by decide, by decide, by decide,
   (processCompletionAttempt_regression_resets [⟨"a", TodoStatus.pending⟩] [] 5 5 []
     "a" (by decide) (by decide) (by decide)).2.2.1⟩

/-- C3 counterexample: two successive evaluations of the identity `"a"`
submitted completed, with the second evaluation's previous snapshot being the
first evaluation's current snapshot (exactly what the persistence sequencer
supplies between successive submissions): after the second evaluation the
count is still 1, not 2 — the item is no longer newly completed, so it is not
incremented. -/
theorem monotonic_ledger_counterexample :
    getAttemptCount ((processCompletionAttempt [⟨"a", TodoStatus.completed⟩] [] 5
      []).2) "a" = 1 ∧
    getAttemptCount ((processCompletionAttempt [⟨"a", TodoStatus.completed⟩]
      [⟨"a", TodoStatus.completed⟩] 5
      ((processCompletionAttempt [⟨"a", TodoStatus.completed⟩] [] 5 []).2)).2) "a"
      = 1 ∧
    getAttemptCount ((processCompletionAttempt [⟨"a", TodoStatus.completed⟩]
      [⟨"a", TodoStatus.completed⟩] 5
      ((processCompletionAttempt [⟨"a", TodoStatus.completed⟩] [] 5 []).2)).2) "a"
      ≠ 2 := by
  refine ⟨rfl, rfl, by decide⟩

/-- C3 (amended): the count grows by 1 per evaluation only while the identity
is presented as *newly* completed each time (previous snapshot showing it
non-completed): `iterLedger n` iterates such evaluations with the default
ceiling 5 starting from the empty ledger, the count after `n` of them is
`min n 5`, and the 6th one is blocked with the ceiling-exceeded message. -/
theorem monotonic_ledger_amended :
    (∀ n : Nat, getAttemptCount (iterLedger n) "a" = ((min n 5 : Nat) : Int)) ∧
    (processCompletionAttempt [⟨"a", TodoStatus.completed⟩]
      [⟨"a", TodoStatus.pending⟩] 5 (iterLedger 5)).1.shouldBlock = true ∧
    (processCompletionAttempt [⟨"a", TodoStatus.completed⟩]
      [⟨"a", TodoStatus.pending⟩] 5 (iterLedger 5)).1.blockReason =
      some (ceilingMessage 5 [⟨"a", TodoStatus.completed⟩]) :=
  ⟨getAttemptCount_iterLedger, by decide, by decide⟩

lemma getAttemptCountJson_ledgerToJson (L : AttemptData) (c : String) :
    getAttemptCountJson (ledgerToJson L) c =
      Except.ok (Json.num (getAttemptCount L c)) := by
  induction L with
  | nil => rfl
  | cons kv rest ih =>
    have hx : ledgerToJson (kv :: rest) =
        Json.obj ((kv.1, Json.num kv.2) ::
          rest.map (fun kv => (kv.1, Json.num kv.2))) := rfl
    rw [hx]
    by_cases h : kv.1 = c
    · have hb : (kv.1 == c) = true := by simpa using h
      have hc : getAttemptCount (kv :: rest) c = kv.2 := by
        simp [getAttemptCount, lookupA_cons, hb]
      rw [hc]
      simp only [getAttemptCountJson, jsonIndex, List.find?, hb]
      rfl
    · have hb : (kv.1 == c) = false := by simpa using h
      have hc : getAttemptCount (kv :: rest) c = getAttemptCount rest c := by
        simp [getAttemptCount, lookupA_cons, hb]
      rw [hc, ← ih]
      simp only [getAttemptCountJson, jsonIndex, List.find?, hb, ledgerToJson]

/-- C9: the stored-ledger read path evaluated at malformed stored documents.
A stored document parsing to JSON `null` (the four-character string "null" is
a truthy string, so `JSON.parse` runs and does not throw inside the `try` of
`getAttemptsData`) is returned as-is, and the subsequent
`attemptsData[todoContent] ?? 0` in `getAttemptCount` throws a TypeError that
nothing catches — reading the ledger fails. A stored array or string reads a
non-zero count, or a value that is not an integer at all, for some
identities. Only a missing document and an unparseable document are read as
the empty ledger; on objects of numbers — everything the tracker itself
writes — the read never fails and agrees with the association-list ledger
model used in the rest of this file. -/
theorem getAttemptCount_malformed_stored_divergence :
    getAttemptCountJson (getAttemptsData (some (some Json.null))) "Write tests" =
      Except.error "TypeError: Cannot read properties of null" ∧
    getAttemptCountJson (getAttemptsData (some (some (Json.arr [Json.num 5])))) "0" =
      Except.ok (Json.num 5) ∧
    getAttemptCountJson (getAttemptsData (some (some (Json.str "abc")))) "length" =
      Except.ok (Json.num 3) ∧
    getAttemptCountJson (getAttemptsData (some (some (Json.str "abc")))) "0" =
      Except.ok (Json.str "a") ∧
    (∀ c, getAttemptCountJson (getAttemptsData none) c = Except.ok (Json.num 0)) ∧
    (∀ c, getAttemptCountJson (getAttemptsData (some none)) c =
      Except.ok (Json.num 0)) ∧
    (∀ (L : AttemptData) (c : String),
      getAttemptCountJson (ledgerToJson L) c =
        Except.ok (Json.num (getAttemptCount L c))) :=
  ⟨rfl, rfl, rfl, rfl, fun _ => rfl, fun _ => rfl, getAttemptCountJson_ledgerToJson⟩

/-- C10: every ledger reachable through the tracker's operations holds only
entries with value at least 1 (count 0 is encoded exclusively by absence);
resetting deletes the entry rather than writing 0; resetting or batch
resetting identities absent from the ledger leaves it unchanged; clearing
leaves no entry at all. -/
theorem ledger_reachable_invariants (L : AttemptData) (h : ReachableLedger L) :
    (∀ c v, lookupA L c = some v → 1 ≤ v) ∧
    (∀ c, lookupA (resetAttempt L c) c = none) ∧
    (∀ c, lookupA L c = none → resetAttempt L c = L) ∧
    (∀ cs : List String, (∀ c ∈ cs, lookupA L c = none) →
      markAsSuccessfullyCompleted L cs = L) ∧
    (∀ c, lookupA clearAllAttempts c = none) := by
  refine ⟨reachableLedger_positive h, ?_, ?_, ?_, fun c => rfl⟩
  · intro c
    simp [resetAttempt, lookupA_eraseA]
  · intro c hc
    exact eraseA_of_lookupA_none L c hc
  · intro cs hcs
    exact markAsSuccessfullyCompleted_of_absent cs L hcs

/-- C10 witness: the invariants evaluated on the reachable ledger obtained by
one increment of `"a"` from the empty ledger. -/
theorem ledger_reachable_invariants_witness :
    (∀ c v, lookupA (incrementAttempt [] "a") c = some v → 1 ≤ v) ∧
    (∀ c, lookupA (resetAttempt (incrementAttempt [] "a") c) c = none) ∧
    (∀ c, lookupA (incrementAttempt [] "a") c = none →
      resetAttempt (incrementAttempt [] "a") c = incrementAttempt [] "a") ∧
    (∀ cs : List String, (∀ c ∈ cs, lookupA (incrementAttempt [] "a") c = none) →
      markAsSuccessfullyCompleted (incrementAttempt [] "a") cs =
        incrementAttempt [] "a") ∧
    (∀ c, lookupA clearAllAttempts c = none) :=
  ledger_reachable_invariants (incrementAttempt [] "a")
    (ReachableLedger.increment "a" ReachableLedger.empty)

/-- C4 evaluation: for a TodoWrite submission arriving while `"old-snapshot"`
is stored as the current snapshot, the `persistOperation` of
`src/hooks/HookEvents.ts` leaves the previous slot holding the projection of
the *new* submission itself — not the prior snapshot the claim requires —
whereas the alternate revision (`persistOperationSequenced`, the sequence the
repository's own fix plan prescribes) rolls `"old-snapshot"` into the
previous slot and skips that write when nothing was stored. -/
theorem persistOperation_previous_slot_divergence :
    (persistOperation ⟨"new-op", "new-op-input", true⟩
      ⟨some "old-snapshot", none, none⟩).previousTodos = some "new-op-input" ∧
    (persistOperation ⟨"new-op", "new-op-input", true⟩
      ⟨some "old-snapshot", none, none⟩).previousTodos ≠ some "old-snapshot" ∧
    (persistOperation ⟨"new-op", "new-op-input", true⟩
      ⟨some "old-snapshot", none, none⟩).todo = some "new-op" ∧
    (persistOperationSequenced ⟨"new-op", "new-op-input", true⟩
      ⟨some "old-snapshot", none, none⟩).previousTodos = some "old-snapshot" ∧
    (persistOperationSequenced ⟨"new-op", "new-op-input", true⟩
      ⟨some "old-snapshot", none, none⟩).todo = some "new-op" ∧
    (persistOperationSequenced ⟨"new-op", "new-op-input", true⟩
      ⟨none, none, none⟩).previousTodos = none := by
  refine ⟨rfl, by decide, rfl, rfl, rfl, rfl⟩
